import Mathlib

/-!
Verification of the two-tier embedding memory subsystem (Cortex) specified in
spec.md. The repository sources under scrutiny contain only the fixture
generator `scripts/generate_cortex_fixtures.py`; the STM/LTM/Manager
implementation itself is not present, so those operations are modelled from
the spec (§3, §4.1–§4.4) and each such definition is marked
`Modelled from the spec:`. The fixture data is embedded verbatim from the
generator script.
-/

namespace Cortex

/-- Modelled from the spec: §3 MemoryItem — the unit of storage. The
STM/LTM implementation is absent from the repository sources; fields follow
the spec's data model (id, content, embedding, metadata). Embedding
components are modelled as rationals (the fixtures use only the decimal
values 0.0, 0.1, 0.9, 1.0). -/
structure MemoryItem where
  id : String
  content : String
  embedding : List ℚ
  metadata : List (String × String)
  deriving DecidableEq, Repr

/-- Modelled from the spec: §4.1 similarity primitive — a deterministic
score where higher means more similar; the metric is underdetermined by the
spec, which only requires that a query `[1,0,0]` ranks `[1,0,0]` above
`[0.9,0.1,0]`; the dot product is a documented choice satisfying that. -/
def dot : List ℚ → List ℚ → ℚ
  | a :: as, b :: bs => a * b + dot as bs
  | _, _ => 0

/-- Similarity score of an item against a query embedding. -/
def score (q : List ℚ) (it : MemoryItem) : ℚ :=
  dot q it.embedding

/-- Modelled from the spec: §4.1 ranking — stable insertion of an item into
a list sorted by descending score; on ties the inserted item (more recently
added/accessed in the scan order) goes first. -/
def insertDesc (q : List ℚ) (a : MemoryItem) : List MemoryItem → List MemoryItem
  | [] => [a]
  | b :: l => if score q b ≤ score q a then a :: b :: l else b :: insertDesc q a l

/-- Modelled from the spec: §4.1 — stable sort of items by descending
similarity score against the query. -/
def rankDesc (q : List ℚ) : List MemoryItem → List MemoryItem
  | [] => []
  | a :: l => insertDesc q a (rankDesc q l)

/-- Modelled from the spec: §4.2 STM state — a capacity and the resident
items in recency order, most-recently-used first. -/
structure STM where
  capacity : ℕ
  items : List MemoryItem
  deriving DecidableEq, Repr

/-- A freshly constructed STM with capacity `c` and no residents. -/
def STM.empty (c : ℕ) : STM :=
  ⟨c, []⟩

/-- The ids currently resident in the STM, most-recently-used first. -/
def STM.residentIds (s : STM) : List String :=
  s.items.map MemoryItem.id

/-- Modelled from the spec: §4.2 `add` — inserts or overwrites under the
item's id, marks it most-recently-used, and evicts the single
least-recently-used entry if a new id pushed the population above
capacity. -/
def STM.add (s : STM) (it : MemoryItem) : STM :=
  ⟨s.capacity,
    if s.capacity < (it :: s.items.filter (fun b => b.id ≠ it.id)).length then
      (it :: s.items.filter (fun b => b.id ≠ it.id)).dropLast
    else
      it :: s.items.filter (fun b => b.id ≠ it.id)⟩

/-- Pure lookup of a resident item by id (no recency side effect); used by
the manager's promotion source check. -/
def STM.find? (s : STM) (id : String) : Option MemoryItem :=
  s.items.find? (fun b => b.id = id)

/-- Modelled from the spec: §4.2 `get` — returns the item if present and,
as a side effect, marks it most-recently-used; returns not-found
(`none`) and leaves the state unchanged if absent. -/
def STM.get (s : STM) (id : String) : Option MemoryItem × STM :=
  match s.items.find? (fun b => b.id = id) with
  | none => (none, s)
  | some it => (some it, ⟨s.capacity, it :: s.items.filter (fun b => b.id ≠ id)⟩)

/-- Modelled from the spec: §4.2 `search` — up to `k` resident items ranked
by descending similarity, read-only. -/
def STM.search (s : STM) (q : List ℚ) (k : ℕ) : List MemoryItem :=
  (rankDesc q s.items).take k

/-- Modelled from the spec: §4.2 — `search` as a trace operation returning
the (unchanged) store state alongside the results, making the read-only
frame condition explicit. -/
def STM.searchOp (s : STM) (q : List ℚ) (k : ℕ) : List MemoryItem × STM :=
  (s.search q k, s)

/-- Apply a sequence of `add` operations in order. -/
def STM.applyAdds (s : STM) (l : List MemoryItem) : STM :=
  l.foldl STM.add s

/-- Modelled from the spec: §4.3 LTM state — a fixed dimensionality and an
unbounded id-keyed record list (most recently added first). -/
structure LTM where
  dim : ℕ
  records : List MemoryItem
  deriving DecidableEq, Repr

/-- A freshly constructed LTM with dimensionality `d` and no records. -/
def LTM.empty (d : ℕ) : LTM :=
  ⟨d, []⟩

/-- Modelled from the spec: §4.3 `add` — inserts or overwrites under the
id; an embedding whose length disagrees with the store's dimensionality is
a signaled contract violation (`none`) that leaves the store untouched. -/
def LTM.add (m : LTM) (it : MemoryItem) : Option LTM :=
  if it.embedding.length = m.dim then
    some ⟨m.dim, it :: m.records.filter (fun b => b.id ≠ it.id)⟩
  else
    none

/-- Apply a sequence of LTM `add`s, propagating a dimension-mismatch
failure. -/
def LTM.addAll (m : LTM) : List MemoryItem → Option LTM
  | [] => some m
  | it :: l =>
    match m.add it with
    | none => none
    | some m2 => m2.addAll l

/-- Modelled from the spec: §4.3 `get` — returns the record or not-found;
no side effects. -/
def LTM.get (m : LTM) (id : String) : Option MemoryItem :=
  m.records.find? (fun b => b.id = id)

/-- Modelled from the spec: §4.3 `delete` — removes the record if present
and returns whether a record was removed; never errors on a missing id. -/
def LTM.delete (m : LTM) (id : String) : Bool × LTM :=
  (m.records.any (fun b => b.id = id), ⟨m.dim, m.records.filter (fun b => b.id ≠ id)⟩)

/-- Modelled from the spec: §4.3 — an item passes a metadata filter when
its metadata contains, for every key in the filter, an entry with the exact
matching value. -/
def matchesFilter (f : List (String × String)) (it : MemoryItem) : Bool :=
  f.all (fun kv => it.metadata.lookup kv.1 = some kv.2)

/-- Modelled from the spec: §4.3 `search` — restrict candidates to items
matching every filter entry (an absent filter matches everything), then
rank by descending similarity, returning up to `k` items. -/
def LTM.search (m : LTM) (q : List ℚ) (k : ℕ) (f : Option (List (String × String))) :
    List MemoryItem :=
  (rankDesc q (m.records.filter (matchesFilter (f.getD [])))).take k

/-- Modelled from the spec: §4.4 Memory Manager state — the coordinated STM
and LTM stores. -/
structure Manager where
  stm : STM
  ltm : LTM
  deriving DecidableEq, Repr

/-- A freshly constructed manager: STM capacity `c`, LTM dimensionality
`d`. -/
def Manager.empty (c d : ℕ) : Manager :=
  ⟨STM.empty c, LTM.empty d⟩

/-- Adding an item through the manager stores it in STM. -/
def Manager.addToStm (m : Manager) (it : MemoryItem) : Manager :=
  ⟨m.stm.add it, m.ltm⟩

/-- Modelled from the spec: §4.4 `promote` — looks up the id in STM; if
absent, fails (`false`) and leaves both stores untouched; if present, adds
a `MemoryItem` with the given embedding and the STM item's
content/metadata into LTM and returns success, without removing the item
from STM. -/
def Manager.promote (m : Manager) (id : String) (emb : List ℚ) : Bool × Manager :=
  match m.stm.find? id with
  | none => (false, m)
  | some it =>
    match m.ltm.add ⟨id, it.content, emb, it.metadata⟩ with
    | none => (false, m)
    | some ltm2 => (true, ⟨m.stm, ltm2⟩)

/-- Modelled from the spec: §4.4 `get_from_ltm` — convenience pass-through
to LTM's `get`. -/
def Manager.getFromLtm (m : Manager) (id : String) : Option MemoryItem :=
  m.ltm.get id

/-!
Fixture data, embedded from `scripts/generate_cortex_fixtures.py`. The
floating literals of the script (0.0, 0.1, 0.9, 1.0) are exact decimals,
rendered as the rationals 0, 1/10, 9/10, 1.
-/

/-- A fixture trace operation record (one JSON object of an `operations`
array in the generator script). -/
inductive TraceOp where
  | addRec (id content : String) (embedding : List ℚ) (metadata : List (String × String))
  | getRec (id : String) (expected : Option (String × String))
  | searchRec (queryEmbedding : List ℚ) (k : ℕ) (filterArg : Option (List (String × String)))
      (expectedOrder : Option (List String)) (expectedIds : Option (List String))
  | deleteRec (id : String) (expected : Bool)
  | promoteRec (id : String) (embedding : List ℚ) (expected : Bool)
  | getFromLtmRec (id : String) (expected : Option (String × String))
  deriving DecidableEq, Repr

/-- A fixture scenario: description, the STM `capacity` or the LTM/manager
`dimensionality` (and the manager's `stm_capacity`), and the ordered
operations. -/
structure Scenario where
  descr : String
  capacity : Option ℕ := none
  stmCapacity : Option ℕ := none
  dimensionality : Option ℕ := none
  operations : List TraceOp
  deriving DecidableEq, Repr

/-- The STM fixtures of `generate_stm_fixtures` (script lines 11–66),
embedded verbatim. -/
def generate_stm_fixtures : List (String × Scenario) :=
  [("stm_basic_operations",
    { descr := "Basic STM add and search operations"
      capacity := some 10
      operations :=
        [.addRec "1" "rust programming language" [1, 0, 0] []
        , .addRec "2" "python programming language" [9/10, 1/10, 0] []
        , .searchRec [1, 0, 0] 2 none (some ["1", "2"]) none] })
  , ("stm_lru_eviction",
    { descr := "LRU eviction when capacity is reached"
      capacity := some 2
      operations :=
        [.addRec "1" "first" [1, 0, 0] []
        , .addRec "2" "second" [0, 1, 0] []
        , .addRec "3" "third" [0, 0, 1] []
        , .getRec "1" none
        , .getRec "2" (some ("2", "second"))
        , .getRec "3" (some ("3", "third"))] })
  , ("stm_lru_access_order",
    { descr := "Access updates LRU order"
      capacity := some 2
      operations :=
        [.addRec "1" "first" [1, 0, 0] []
        , .addRec "2" "second" [0, 1, 0] []
        , .getRec "1" (some ("1", "first"))
        , .addRec "3" "third" [0, 0, 1] []
        , .getRec "1" (some ("1", "first"))
        , .getRec "2" none
        , .getRec "3" (some ("3", "third"))] })]

/-- The LTM fixtures of `generate_ltm_fixtures` (script lines 68–127),
embedded verbatim. -/
def generate_ltm_fixtures : List (String × Scenario) :=
  [("ltm_basic_operations",
    { descr := "Basic LTM add, get, delete operations"
      dimensionality := some 3
      operations :=
        [.addRec "1" "rust programming" [1, 0, 0] [("tag", "programming")]
        , .getRec "1" (some ("1", "rust programming"))
        , .deleteRec "1" true
        , .getRec "1" none] })
  , ("ltm_metadata_filtering",
    { descr := "Metadata filtering in search"
      dimensionality := some 3
      operations :=
        [.addRec "1" "rust content" [1, 0, 0] [("tag", "rust"), ("type", "code")]
        , .addRec "2" "python content" [9/10, 1/10, 0] [("tag", "python"), ("type", "code")]
        , .searchRec [1, 0, 0] 2 (some [("tag", "rust")]) none (some ["1"])] })]

/-- The manager fixtures of `generate_memory_manager_fixtures` (script
lines 129–158), embedded verbatim. -/
def generate_memory_manager_fixtures : List (String × Scenario) :=
  [("manager_stm_to_ltm_promotion",
    { descr := "Promote memory from STM to LTM"
      stmCapacity := some 10
      dimensionality := some 3
      operations :=
        [.addRec "1" "test content" [1, 0, 0] []
        , .promoteRec "1" [1, 0, 0] true
        , .getFromLtmRec "1" (some ("1", "test content"))] })]

/-- All embedding vectors (item embeddings and query embeddings) occurring
in one trace operation. -/
def TraceOp.embeddings : TraceOp → List (List ℚ)
  | .addRec _ _ e _ => [e]
  | .searchRec q _ _ _ _ => [q]
  | .promoteRec _ e _ => [e]
  | _ => []

/-- All embedding vectors occurring in a scenario's operations. -/
def Scenario.embeddings (s : Scenario) : List (List ℚ) :=
  (s.operations.map TraceOp.embeddings).flatten

/-- The MemoryItem added by an `add` trace operation of the fixtures. -/
def TraceOp.addedItem : TraceOp → Option MemoryItem
  | .addRec i c e md => some ⟨i, c, e, md⟩
  | _ => none

/-- The items of the `stm_lru_eviction` and `stm_lru_access_order`
fixtures. -/
def lruItem1 : MemoryItem := ⟨"1", "first", [1, 0, 0], []⟩

/-- Second item of the LRU fixtures. -/
def lruItem2 : MemoryItem := ⟨"2", "second", [0, 1, 0], []⟩

/-- Third item of the LRU fixtures. -/
def lruItem3 : MemoryItem := ⟨"3", "third", [0, 0, 1], []⟩

/-- First item of the `stm_basic_operations` fixture. -/
def stmItem1 : MemoryItem := ⟨"1", "rust programming language", [1, 0, 0], []⟩

/-- Second item of the `stm_basic_operations` fixture. -/
def stmItem2 : MemoryItem := ⟨"2", "python programming language", [9/10, 1/10, 0], []⟩

/-- Item of the `ltm_basic_operations` fixture. -/
def ltmItem1 : MemoryItem := ⟨"1", "rust programming", [1, 0, 0], [("tag", "programming")]⟩

/-- First item of the `ltm_metadata_filtering` fixture. -/
def ltmRust : MemoryItem := ⟨"1", "rust content", [1, 0, 0], [("tag", "rust"), ("type", "code")]⟩

/-- Second item of the `ltm_metadata_filtering` fixture. -/
def ltmPython : MemoryItem := ⟨"2", "python content", [9/10, 1/10, 0], [("tag", "python"), ("type", "code")]⟩

/-- Item of the `manager_stm_to_ltm_promotion` fixture. -/
def mgrItem1 : MemoryItem := ⟨"1", "test content", [1, 0, 0], []⟩

/-! Basic lemmas about the STM operations. -/

theorem STM.add_capacity (s : STM) (it : MemoryItem) : (s.add it).capacity = s.capacity :=
  rfl

theorem STM.add_length_le (s : STM) (it : MemoryItem) (h : s.items.length ≤ s.capacity) :
    (s.add it).items.length ≤ s.capacity := by
  have hf := List.length_filter_le (fun b => decide (b.id ≠ it.id)) s.items
  simp only [STM.add]
  split
  · next hlt =>
    rw [List.length_dropLast, List.length_cons]
    omega
  · next hlt =>
    rw [List.length_cons]
    rw [List.length_cons] at hlt
    omega

theorem STM.applyAdds_capacity (s : STM) (l : List MemoryItem) :
    (s.applyAdds l).capacity = s.capacity := by
  induction l generalizing s with
  | nil => rfl
  | cons a l ih => simpa [STM.applyAdds, List.foldl_cons] using ih (s.add a)

theorem STM.applyAdds_length_le (s : STM) (l : List MemoryItem)
    (h : s.items.length ≤ s.capacity) :
    (s.applyAdds l).items.length ≤ s.capacity := by
  induction l generalizing s with
  | nil => exact h
  | cons a l ih =>
    have h2 : (s.add a).items.length ≤ (s.add a).capacity :=
      STM.add_capacity s a ▸ STM.add_length_le s a h
    simpa [STM.applyAdds, List.foldl_cons, STM.add_capacity] using ih (s.add a) h2

theorem STM.filter_ne_of_not_resident (s : STM) (i : String)
    (h : i ∉ s.residentIds) :
    s.items.filter (fun b => b.id ≠ i) = s.items := by
  rw [List.filter_eq_self]
  intro a ha
  simp only [ne_eq, decide_not, Bool.not_eq_eq_eq_not, Bool.not_true, decide_eq_false_iff_not]
  intro hEq
  exact h (hEq ▸ List.mem_map_of_mem MemoryItem.id ha)

/-- C1: for every STM constructed with positive capacity `C`, after any
sequence of `add`s the resident count never exceeds `C`; and whenever an
`add` of a new id arrives with the population at `C` (so that insertion
would push it above `C`), exactly the least-recently-used item (the last of
the recency list) is evicted together with the insertion. -/
theorem stm_capacity_invariant_and_lru_eviction (C : ℕ) (hC : 0 < C)
    (adds : List MemoryItem) (it : MemoryItem) :
    ((STM.empty C).applyAdds adds).items.length ≤ C ∧
    (it.id ∉ ((STM.empty C).applyAdds adds).residentIds →
      ((STM.empty C).applyAdds adds).items.length = C →
      (((STM.empty C).applyAdds adds).add it).items =
        it :: ((STM.empty C).applyAdds adds).items.dropLast) := by
  have hcap : ((STM.empty C).applyAdds adds).capacity = C :=
    STM.applyAdds_capacity (STM.empty C) adds
  have hlen : ((STM.empty C).applyAdds adds).items.length ≤ C := by
    have := STM.applyAdds_length_le (STM.empty C) adds (by simp [STM.empty])
    simpa [STM.empty] using this
  refine ⟨hlen, fun hNew hFull => ?_⟩
  set s := (STM.empty C).applyAdds adds with hs
  have hfilter : s.items.filter (fun b => b.id ≠ it.id) = s.items :=
    STM.filter_ne_of_not_resident s it.id hNew
  simp only [STM.add, hfilter]
  rw [if_pos]
  · cases hMatch : s.items with
    | nil => rw [hMatch] at hFull; simp at hFull; omega
    | cons x xs => exact List.dropLast_cons₂
  · rw [List.length_cons, hFull, hcap]; omega

/-- Witness for C1: capacity 1, one resident item, a fresh add evicts the
single least-recently-used resident. -/
theorem stm_capacity_invariant_and_lru_eviction_witness :
    (0 : ℕ) < 1 ∧
    (((STM.empty 1).applyAdds [lruItem1]).items.length ≤ 1 ∧
      (lruItem2.id ∉ ((STM.empty 1).applyAdds [lruItem1]).residentIds →
        ((STM.empty 1).applyAdds [lruItem1]).items.length = 1 →
        (((STM.empty 1).applyAdds [lruItem1]).add lruItem2).items =
          lruItem2 :: ((STM.empty 1).applyAdds [lruItem1]).items.dropLast)) :=
  ⟨by decide, stm_capacity_invariant_and_lru_eviction 1 (by decide) [lruItem1] lruItem2⟩

theorem STM.add_items_of_fresh (s : STM) (a : MemoryItem) (h : a.id ∉ s.residentIds) :
    (s.add a).items =
      if s.capacity < s.items.length + 1 then (a :: s.items).dropLast else a :: s.items := by
  simp only [STM.add, STM.filter_ne_of_not_resident s a.id h, List.length_cons]

/-- Adding items with pairwise-distinct ids to a fresh STM leaves exactly
the last `C` of them resident, most-recently-added first. -/
theorem STM.applyAdds_fresh (C : ℕ) (l : List MemoryItem)
    (h : (l.map MemoryItem.id).Nodup) :
    ((STM.empty C).applyAdds l).items = l.reverse.take C := by
  induction l using List.reverseRecOn with
  | nil => simp [STM.applyAdds, STM.empty]
  | append_singleton l a ih =>
    rw [List.map_append, List.nodup_append] at h
    obtain ⟨h1, _, hdisj⟩ := h
    have h2 : a.id ∉ l.map MemoryItem.id := fun hmem => hdisj hmem (by simp)
    have hstep : (STM.empty C).applyAdds (l ++ [a]) = ((STM.empty C).applyAdds l).add a := by
      rw [STM.applyAdds, List.foldl_append]; rfl
    have hitems := ih h1
    have hfresh : a.id ∉ ((STM.empty C).applyAdds l).residentIds := by
      rw [STM.residentIds, hitems]
      intro hmem
      apply h2
      rcases List.mem_map.mp hmem with ⟨b, hb, hbid⟩
      have hbl : b ∈ l :=
        List.mem_reverse.mp (List.Sublist.mem hb (List.take_sublist C l.reverse))
      exact hbid ▸ List.mem_map_of_mem MemoryItem.id hbl
    rw [hstep, STM.add_items_of_fresh _ _ hfresh, STM.applyAdds_capacity, hitems,
      List.reverse_append, List.length_take]
    simp only [STM.empty, List.reverse_cons, List.reverse_nil, List.nil_append,
      List.singleton_append]
    rcases Nat.lt_or_ge l.reverse.length C with hlen | hlen
    · rw [if_neg (by omega), List.take_of_length_le (le_of_lt hlen),
        List.take_of_length_le (by simp only [List.length_cons]; omega)]
    · rw [if_pos (by omega)]
      cases C with
      | zero => simp
      | succ n =>
        rw [List.take_succ_cons]
        have hne : l.reverse.take (n + 1) ≠ [] := by
          intro hEq
          have := congrArg List.length hEq
          rw [List.length_take] at this
          simp only [List.length_nil] at this
          omega
        rw [List.dropLast_cons_of_ne_nil hne, List.dropLast_eq_take, List.length_take,
          List.take_take]
        have hmin1 : (n + 1) ⊓ l.reverse.length - 1 = n := by
          omega
        have hmin2 : ((n + 1) ⊓ l.reverse.length - 1) ⊓ (n + 1) = n := by
          rw [hmin1, Nat.min_eq_left (by omega)]
        rw [hmin2]

/-- C2: adding more distinct ids than the capacity `C` in order, with no
intervening `get`, leaves exactly the last `C` added ids resident
(most-recently-added first); in particular, with capacity 2 and the fixture
items 1, 2, 3 added in order, `get "1"` is absent while `get "2"` and
`get "3"` return the stored items. -/
theorem stm_lru_keeps_last_items (C : ℕ) (l : List MemoryItem)
    (h1 : (l.map MemoryItem.id).Nodup) (h2 : C < l.length) :
    ((STM.empty C).applyAdds l).residentIds = (l.map MemoryItem.id).reverse.take C ∧
    ((STM.empty C).applyAdds l).residentIds.length = C ∧
    ((((STM.empty 2).applyAdds [lruItem1, lruItem2, lruItem3]).get "1").1 = none ∧
      (((((STM.empty 2).applyAdds [lruItem1, lruItem2, lruItem3]).get "1").2.get "2").1 =
        some lruItem2) ∧
      ((((((STM.empty 2).applyAdds [lruItem1, lruItem2, lruItem3]).get "1").2.get
        "2").2.get "3").1 = some lruItem3)) := by
  refine ⟨?_, ?_, by decide, by decide, by decide⟩
  · rw [STM.residentIds, STM.applyAdds_fresh C l h1, ← List.map_reverse, List.map_take]
  · rw [STM.residentIds, List.length_map, STM.applyAdds_fresh C l h1, List.length_take,
      List.length_reverse]
    omega

/-- Witness for C2: capacity 2 with the three LRU fixture items. -/
theorem stm_lru_keeps_last_items_witness :
    ([lruItem1, lruItem2, lruItem3].map MemoryItem.id).Nodup ∧ 2 < 3 ∧
    (((STM.empty 2).applyAdds [lruItem1, lruItem2, lruItem3]).residentIds =
        ([lruItem1, lruItem2, lruItem3].map MemoryItem.id).reverse.take 2 ∧
      ((STM.empty 2).applyAdds [lruItem1, lruItem2, lruItem3]).residentIds.length = 2 ∧
      ((((STM.empty 2).applyAdds [lruItem1, lruItem2, lruItem3]).get "1").1 = none ∧
        (((((STM.empty 2).applyAdds [lruItem1, lruItem2, lruItem3]).get "1").2.get "2").1 =
          some lruItem2) ∧
        ((((((STM.empty 2).applyAdds [lruItem1, lruItem2, lruItem3]).get "1").2.get
          "2").2.get "3").1 = some lruItem3))) :=
  ⟨by decide, by decide,
    stm_lru_keeps_last_items 2 [lruItem1, lruItem2, lruItem3] (by decide) (by decide)⟩

/-- C3: `get` on a resident id returns it and marks it most-recently-used
(it becomes the head of the recency order), protecting it from the next
eviction relative to untouched older items; in particular, with capacity 2,
after add 1, add 2, get 1, add 3, ids 1 and 3 are resident and id 2 has
been evicted. -/
theorem stm_get_refreshes_recency (s : STM) (i : String) (it : MemoryItem)
    (h : s.items.find? (fun b => b.id = i) = some it) :
    (s.get i).1 = some it ∧
    ((s.get i).2.items.map MemoryItem.id).head? = some i ∧
    ((((((STM.empty 2).applyAdds [lruItem1, lruItem2]).get "1").2.add lruItem3).get
        "1").1 = some lruItem1 ∧
      ((((((STM.empty 2).applyAdds [lruItem1, lruItem2]).get "1").2.add
        lruItem3).get "2").1 = none) ∧
      ((((((STM.empty 2).applyAdds [lruItem1, lruItem2]).get "1").2.add
        lruItem3).get "3").1 = some lruItem3)) := by
  have hid : it.id = i := by
    have := List.find?_some h
    simpa using this
  refine ⟨?_, ?_, by decide, by decide, by decide⟩
  · rw [STM.get, h]
  · rw [STM.get, h]
    simp [hid]

/-- Witness for C3: the capacity-2 access-order fixture state, getting the
resident id 1. -/
theorem stm_get_refreshes_recency_witness :
    ((STM.empty 2).applyAdds [lruItem1, lruItem2]).items.find?
        (fun b => b.id = "1") = some lruItem1 ∧
    ((((STM.empty 2).applyAdds [lruItem1, lruItem2]).get "1").1 = some lruItem1 ∧
      (((((STM.empty 2).applyAdds [lruItem1, lruItem2]).get "1").2.items.map
        MemoryItem.id).head? = some "1") ∧
      ((((((STM.empty 2).applyAdds [lruItem1, lruItem2]).get "1").2.add lruItem3).get
          "1").1 = some lruItem1 ∧
        ((((((STM.empty 2).applyAdds [lruItem1, lruItem2]).get "1").2.add
          lruItem3).get "2").1 = none) ∧
        ((((((STM.empty 2).applyAdds [lruItem1, lruItem2]).get "1").2.add
          lruItem3).get "3").1 = some lruItem3))) :=
  ⟨by decide,
    stm_get_refreshes_recency ((STM.empty 2).applyAdds [lruItem1, lruItem2]) "1" lruItem1
      (by decide)⟩

/-! Ranking lemmas: `rankDesc` permutes its input and sorts it by
descending score. -/

theorem insertDesc_perm (q : List ℚ) (a : MemoryItem) (l : List MemoryItem) :
    (insertDesc q a l).Perm (a :: l) := by
  induction l with
  | nil => exact List.Perm.refl [a]
  | cons b l ih =>
    rw [insertDesc]
    split
    · exact List.Perm.refl _
    · exact (ih.cons b).trans (List.Perm.swap a b l)

theorem rankDesc_perm (q : List ℚ) (l : List MemoryItem) :
    (rankDesc q l).Perm l := by
  induction l with
  | nil => exact List.Perm.refl []
  | cons a l ih => exact (insertDesc_perm q a (rankDesc q l)).trans (ih.cons a)

theorem insertDesc_pairwise (q : List ℚ) (a : MemoryItem) (l : List MemoryItem)
    (h : l.Pairwise (fun x y => score q y ≤ score q x)) :
    (insertDesc q a l).Pairwise (fun x y => score q y ≤ score q x) := by
  induction l with
  | nil => simp [insertDesc]
  | cons b l ih =>
    rw [List.pairwise_cons] at h
    obtain ⟨hb, hl⟩ := h
    rw [insertDesc]
    split
    · next hba =>
      refine List.Pairwise.cons ?_ (List.pairwise_cons.mpr ⟨hb, hl⟩)
      intro x hx
      rcases List.mem_cons.mp hx with rfl | hx
      · exact hba
      · exact le_trans (hb x hx) hba
    · next hba =>
      refine List.Pairwise.cons ?_ (ih hl)
      intro x hx
      rcases List.mem_cons.mp ((insertDesc_perm q a l).mem_iff.mp hx) with rfl | hx
      · exact le_of_not_le hba
      · exact hb x hx

theorem rankDesc_pairwise (q : List ℚ) (l : List MemoryItem) :
    (rankDesc q l).Pairwise (fun x y => score q y ≤ score q x) := by
  induction l with
  | nil => exact List.Pairwise.nil
  | cons a l ih => exact insertDesc_pairwise q a (rankDesc q l) ih

/-- C4: STM `search` returns items ranked by descending similarity score
(every earlier result scores at least as high as every later one); in
particular, on the `stm_basic_operations` fixture — id 1 embedded
`[1,0,0]`, id 2 embedded `[0.9,0.1,0]` — the query `[1,0,0]` with `k = 2`
returns the ids in the order `["1", "2"]`. -/
theorem stm_search_ranked_descending (s : STM) (q : List ℚ) (k : ℕ) :
    (s.search q k).Pairwise (fun x y => score q y ≤ score q x) ∧
    (((STM.empty 10).applyAdds [stmItem1, stmItem2]).search [1, 0, 0] 2).map
        MemoryItem.id = ["1", "2"] := by
  constructor
  · exact List.Pairwise.sublist (List.take_sublist k _) (rankDesc_pairwise q s.items)
  · norm_num [STM.applyAdds, STM.empty, STM.add, STM.search, rankDesc, insertDesc,
      score, dot, stmItem1, stmItem2]

/-- C9: STM `search` is read-only — it returns the store unchanged as a
trace operation — and returns exactly `min k (resident count)` results, all
of them resident items, with `k = 0` yielding the empty sequence and an
oversized `k` yielding fewer results without error. -/
theorem stm_search_frame_and_bounds (s : STM) (q : List ℚ) (k : ℕ) :
    (s.searchOp q k).2 = s ∧
    (s.search q k).length = min k s.items.length ∧
    (∀ x, x ∈ s.search q k → x ∈ s.items) ∧
    s.search q 0 = [] := by
  refine ⟨rfl, ?_, ?_, rfl⟩
  · rw [STM.search, List.length_take, (rankDesc_perm q s.items).length_eq]
  · intro x hx
    exact (rankDesc_perm q s.items).mem_iff.mp
      (List.Sublist.mem hx (List.take_sublist k _))

/-- Witness for C9 at the `stm_basic_operations` fixture state. -/
theorem stm_search_frame_and_bounds_witness :
    (((STM.empty 10).applyAdds [stmItem1, stmItem2]).searchOp [1, 0, 0] 2).2 =
        (STM.empty 10).applyAdds [stmItem1, stmItem2] ∧
    (((STM.empty 10).applyAdds [stmItem1, stmItem2]).search [1, 0, 0] 2).length =
        min 2 ((STM.empty 10).applyAdds [stmItem1, stmItem2]).items.length ∧
    (∀ x, x ∈ ((STM.empty 10).applyAdds [stmItem1, stmItem2]).search [1, 0, 0] 2 →
        x ∈ ((STM.empty 10).applyAdds [stmItem1, stmItem2]).items) ∧
    ((STM.empty 10).applyAdds [stmItem1, stmItem2]).search [1, 0, 0] 0 = [] :=
  stm_search_frame_and_bounds ((STM.empty 10).applyAdds [stmItem1, stmItem2]) [1, 0, 0] 2

/-- A single-record LTM used as a concrete instance for the filter-soundness
witness (empty embedding, so the similarity arithmetic is trivial). -/
def wTagged : MemoryItem := ⟨"1", "x", [], [("tag", "rust")]⟩

/-- C5: every item returned by an LTM `search` with a filter has, for every
key of the filter, a metadata entry with the exact matching value; an
absent filter behaves as the empty filter, and the empty filter excludes
nothing; in particular, on the `ltm_metadata_filtering` fixture — items
tagged `rust` and `python` — `search([1,0,0], k=2, filter={tag: rust})`
returns only id 1. -/
theorem ltm_search_filter_exact (m : LTM) (q : List ℚ) (k : ℕ)
    (f : List (String × String)) (it : MemoryItem)
    (h : it ∈ m.search q k (some f)) :
    matchesFilter f it = true ∧
    m.search q k none = m.search q k (some []) ∧
    m.records.filter (matchesFilter []) = m.records ∧
    (((LTM.empty 3).addAll [ltmRust, ltmPython]).map
        (fun m2 => (m2.search [1, 0, 0] 2 (some [("tag", "rust")])).map MemoryItem.id))
      = some ["1"] := by
  refine ⟨?_, rfl, ?_, ?_⟩
  · rw [LTM.search] at h
    have h2 : it ∈ rankDesc q (m.records.filter (matchesFilter ((some f).getD []))) :=
      List.Sublist.mem h (List.take_sublist k _)
    have h3 := (rankDesc_perm q _).mem_iff.mp h2
    simpa using (List.mem_filter.mp h3).2
  · rw [List.filter_eq_self]
    intro a _
    rfl
  · norm_num [LTM.empty, LTM.addAll, LTM.add, LTM.search, rankDesc, insertDesc, score,
      dot, matchesFilter, List.lookup, ltmRust, ltmPython]

/-- Witness for C5: a concrete search on a single tagged record returns the
record, which matches the filter. -/
theorem ltm_search_filter_exact_witness :
    wTagged ∈ (LTM.mk 0 [wTagged]).search [] 1 (some [("tag", "rust")]) ∧
    (matchesFilter [("tag", "rust")] wTagged = true ∧
      (LTM.mk 0 [wTagged]).search [] 1 none = (LTM.mk 0 [wTagged]).search [] 1 (some []) ∧
      (LTM.mk 0 [wTagged]).records.filter (matchesFilter []) =
        (LTM.mk 0 [wTagged]).records ∧
      (((LTM.empty 3).addAll [ltmRust, ltmPython]).map
          (fun m2 => (m2.search [1, 0, 0] 2 (some [("tag", "rust")])).map MemoryItem.id))
        = some ["1"]) :=
  ⟨by decide,
    ltm_search_filter_exact (LTM.mk 0 [wTagged]) [] 1 [("tag", "rust")] wTagged
      (by decide)⟩

/-- C6: LTM `delete` returns `true` exactly when a record with the id
existed (and `false`, never an error, otherwise), and a `get` on the same
id immediately after `delete` is always absent; in particular the
`ltm_basic_operations` fixture — add id 1, get it, delete it (→ `true`),
get it again (→ absent) — behaves as recorded. -/
theorem ltm_delete_removes_record (m : LTM) (i : String) :
    ((m.delete i).1 = true ↔ ∃ it ∈ m.records, it.id = i) ∧
    (m.delete i).2.get i = none ∧
    (((LTM.empty 3).addAll [ltmItem1]).map
        (fun m1 => ((m1.get "1"), (m1.delete "1").1, ((m1.delete "1").2.get "1")))
      = some (some ltmItem1, true, none)) := by
  refine ⟨?_, ?_, by decide⟩
  · simp [LTM.delete, List.any_eq_true]
  · rw [LTM.delete, LTM.get, List.find?_eq_none]
    intro x hx
    have h2 := (List.mem_filter.mp hx).2
    simp only [ne_eq, decide_not, Bool.not_eq_eq_eq_not, Bool.not_true,
      decide_eq_false_iff_not] at h2
    simpa using h2

/-- Witness for C6 on the `ltm_basic_operations` fixture store. -/
theorem ltm_delete_removes_record_witness :
    (((LTM.mk 3 [ltmItem1]).delete "1").1 = true ↔
        ∃ it ∈ (LTM.mk 3 [ltmItem1]).records, it.id = "1") ∧
    ((LTM.mk 3 [ltmItem1]).delete "1").2.get "1" = none ∧
    (((LTM.empty 3).addAll [ltmItem1]).map
        (fun m1 => ((m1.get "1"), (m1.delete "1").1, ((m1.delete "1").2.get "1")))
      = some (some ltmItem1, true, none)) :=
  ltm_delete_removes_record (LTM.mk 3 [ltmItem1]) "1"

/-! Lemmas about a successful LTM `add`. -/

theorem LTM.add_eq_some (m : LTM) (i c : String) (e : List ℚ)
    (md : List (String × String)) (h : e.length = m.dim) :
    m.add ⟨i, c, e, md⟩ = some ⟨m.dim, ⟨i, c, e, md⟩ ::
      m.records.filter (fun b => b.id ≠ i)⟩ := by
  rw [LTM.add]
  exact if_pos h

theorem LTM.add_countP_one (m : LTM) (it : MemoryItem) (m2 : LTM)
    (h : m.add it = some m2) :
    m2.records.countP (fun b => b.id = it.id) = 1 := by
  rw [LTM.add] at h
  split at h
  · cases h
    rw [List.countP_cons_of_pos _ _ (by simp)]
    have hz : (m.records.filter (fun b => decide (b.id ≠ it.id))).countP
        (fun b => decide (b.id = it.id)) = 0 := by
      rw [List.countP_eq_zero]
      intro a ha
      have h2 := (List.mem_filter.mp ha).2
      simp only [ne_eq, decide_not, Bool.not_eq_eq_eq_not, Bool.not_true,
        decide_eq_false_iff_not] at h2
      simpa using h2
    rw [hz]
  · cases h

theorem LTM.add_get_self (m : LTM) (it : MemoryItem) (m2 : LTM)
    (h : m.add it = some m2) :
    m2.get it.id = some it := by
  rw [LTM.add] at h
  split at h
  · cases h
    rw [LTM.get]
    exact List.find?_cons_of_pos _ (by simp)
  · cases h

theorem LTM.add_dim_eq (m : LTM) (it : MemoryItem) (m2 : LTM)
    (h : m.add it = some m2) :
    m2.dim = m.dim := by
  rw [LTM.add] at h
  split at h
  · cases h; rfl
  · cases h

/-- C7: when `promote(id, embedding)` finds the id resident in STM (and the
embedding has the store's dimensionality), it succeeds, leaves the STM
untouched, and stores in LTM an item carrying the given embedding and the
STM item's content and metadata; promoting the same id a second time
succeeds again and leaves a single LTM record for that id rather than a
duplicate; in particular the `manager_stm_to_ltm_promotion` fixture — add
id 1 to a capacity-10 STM, `promote("1", [1,0,0])` → `true`,
`get_from_ltm("1")` → the promoted content — behaves as recorded. -/
theorem manager_promote_copies_to_ltm (m : Manager) (i : String) (emb : List ℚ)
    (it : MemoryItem) (h1 : m.stm.find? i = some it)
    (h2 : emb.length = m.ltm.dim) :
    (m.promote i emb).1 = true ∧
    (m.promote i emb).2.stm = m.stm ∧
    (m.promote i emb).2.ltm.get i = some ⟨i, it.content, emb, it.metadata⟩ ∧
    ((m.promote i emb).2.promote i emb).1 = true ∧
    ((m.promote i emb).2.promote i emb).2.ltm.records.countP (fun b => b.id = i) = 1 ∧
    ((((Manager.empty 10 3).addToStm mgrItem1).promote "1" [1, 0, 0]).1 = true ∧
      (((Manager.empty 10 3).addToStm mgrItem1).promote "1" [1, 0, 0]).2.getFromLtm "1" =
        some ⟨"1", "test content", [1, 0, 0], []⟩) := by
  have hadd := LTM.add_eq_some m.ltm i it.content emb it.metadata h2
  set m2 : LTM := ⟨m.ltm.dim, ⟨i, it.content, emb, it.metadata⟩ ::
    m.ltm.records.filter (fun b => b.id ≠ i)⟩ with hm2
  have hp : m.promote i emb = (true, ⟨m.stm, m2⟩) := by
    simp only [Manager.promote, h1, hadd]
  have hadd2 := LTM.add_eq_some m2 i it.content emb it.metadata (by rw [hm2]; exact h2)
  set m3 : LTM := ⟨m2.dim, ⟨i, it.content, emb, it.metadata⟩ ::
    m2.records.filter (fun b => b.id ≠ i)⟩ with hm3
  have hfd : (⟨m.stm, m2⟩ : Manager).stm.find? i = some it := h1
  have hp2 : (⟨m.stm, m2⟩ : Manager).promote i emb = (true, ⟨m.stm, m3⟩) := by
    simp only [Manager.promote, hfd, hadd2]
  refine ⟨by rw [hp], by rw [hp], ?_, ?_, ?_, by decide, by decide⟩
  · rw [hp]
    exact LTM.add_get_self m.ltm ⟨i, it.content, emb, it.metadata⟩ m2 hadd
  · rw [hp, hp2]
  · rw [hp, hp2]
    exact LTM.add_countP_one m2 ⟨i, it.content, emb, it.metadata⟩ m3 hadd2

/-- Witness for C7 on the `manager_stm_to_ltm_promotion` fixture. -/
theorem manager_promote_copies_to_ltm_witness :
    ((Manager.empty 10 3).addToStm mgrItem1).stm.find? "1" = some mgrItem1 ∧
    ([(1 : ℚ), 0, 0].length = ((Manager.empty 10 3).addToStm mgrItem1).ltm.dim) ∧
    ((((Manager.empty 10 3).addToStm mgrItem1).promote "1" [1, 0, 0]).1 = true ∧
      (((Manager.empty 10 3).addToStm mgrItem1).promote "1" [1, 0, 0]).2.stm =
        ((Manager.empty 10 3).addToStm mgrItem1).stm ∧
      (((Manager.empty 10 3).addToStm mgrItem1).promote "1" [1, 0, 0]).2.ltm.get "1" =
        some ⟨"1", mgrItem1.content, [1, 0, 0], mgrItem1.metadata⟩ ∧
      (((((Manager.empty 10 3).addToStm mgrItem1).promote "1" [1, 0, 0]).2.promote "1"
        [1, 0, 0]).1 = true) ∧
      (((((Manager.empty 10 3).addToStm mgrItem1).promote "1" [1, 0, 0]).2.promote "1"
        [1, 0, 0]).2.ltm.records.countP (fun b => b.id = "1") = 1) ∧
      ((((Manager.empty 10 3).addToStm mgrItem1).promote "1" [1, 0, 0]).1 = true ∧
        (((Manager.empty 10 3).addToStm mgrItem1).promote "1" [1, 0, 0]).2.getFromLtm
          "1" = some ⟨"1", "test content", [1, 0, 0], []⟩)) :=
  ⟨by decide, by decide,
    manager_promote_copies_to_ltm ((Manager.empty 10 3).addToStm mgrItem1) "1"
      [1, 0, 0] mgrItem1 (by decide) (by decide)⟩

/-- C8: `promote` of an id absent from STM reports failure (`false`,
distinguishable from success and not a crash) and leaves the manager — in
particular the LTM and every record in it — completely unchanged. -/
theorem manager_promote_missing_id_fails (m : Manager) (i : String) (emb : List ℚ)
    (h : m.stm.find? i = none) :
    m.promote i emb = (false, m) := by
  rw [Manager.promote, h]

/-- Witness for C8: promoting id 2 on a manager whose STM holds only
id 1. -/
theorem manager_promote_missing_id_fails_witness :
    ((Manager.empty 10 3).addToStm mgrItem1).stm.find? "2" = none ∧
    ((Manager.empty 10 3).addToStm mgrItem1).promote "2" [1, 0, 0] =
      (false, (Manager.empty 10 3).addToStm mgrItem1) :=
  ⟨by decide,
    manager_promote_missing_id_fails ((Manager.empty 10 3).addToStm mgrItem1) "2"
      [1, 0, 0] (by decide)⟩

/-- C10: every embedding and query embedding occurring in the fixtures
returned by `generate_stm_fixtures`, `generate_ltm_fixtures` and
`generate_memory_manager_fixtures` has length exactly 3; every LTM and
manager scenario declares dimensionality 3; and in those scenarios every
embedding's length equals the declared dimensionality — so no generated
trace exercises the DimensionMismatch condition. -/
theorem fixtures_dimension_three :
    ((generate_stm_fixtures ++ generate_ltm_fixtures ++
        generate_memory_manager_fixtures).all
      (fun p => p.2.embeddings.all (fun e => e.length = 3))) = true ∧
    ((generate_ltm_fixtures ++ generate_memory_manager_fixtures).all
      (fun p => p.2.dimensionality = some 3)) = true ∧
    ((generate_ltm_fixtures ++ generate_memory_manager_fixtures).all
      (fun p => p.2.embeddings.all (fun e => some e.length = p.2.dimensionality))) =
      true := by
  refine ⟨?_, ?_, ?_⟩ <;> decide

end Cortex

